import Mathlib

/-
Verification development for refactor_tools/import_refactor_helper.py.

The Python module offers two capabilities over a tree of source files:
finding files that reference a given module (either structurally, via the
ast module, or textually, via regular expressions built by
make_import_regexes), and renaming such references in place
(ImportRenamer).  This file gives a shallow embedding of those
operations and proves or refutes the frozen claims about them.

Modelling conventions:
- Python sources are modelled at two levels.  For the structural checker
  (ImportCheckerVisitor / imports_module) a file is a list of statement
  nodes as produced by ast.parse, which is an external collaborator:
  the parse result (or parse failure) is an input of the model.
- For the textual matchers the source is its list of characters, and the
  two concrete regular expressions built by make_import_regexes
  ("import {m}(.*)" and "from {m}(.* import .+)") are embedded as
  executable matching functions with the semantics of the re module:
  a dot in the module identifier matches any character except a newline,
  every other identifier character is literal, (.*) and (.+) never cross
  a newline and are greedy, search scans positions left to right, sub
  replaces each non-overlapping match and resumes after its end, and
  finditer lists the matches in the same scan order.
- File system reads and writes are made explicit: a renamer visit
  returns the content that would be written back (if any) together with
  the report entries it appends.
-/

namespace RefactorTools

/-- Equality of Except values is decidable when both components have
decidable equality (used to evaluate walk results on concrete trees). -/
instance {ε α : Type _} [DecidableEq ε] [DecidableEq α] :
    DecidableEq (Except ε α) := fun x y =>
  match x, y with
  | .error a, .error b => decidable_of_iff (a = b) (by simp)
  | .error _, .ok _ => isFalse (by simp)
  | .ok _, .error _ => isFalse (by simp)
  | .ok a, .ok b => decidable_of_iff (a = b) (by simp)

/-! ## Structural model: statement nodes and ImportCheckerVisitor -/

/-- A statement node of the parsed file, as the visitor distinguishes
them: a plain import with its list of dotted names, a from-import with
its optional source module, its relative level and its imported names,
or any other statement (ignored by the visitor). -/
inductive PyStmt where
  | imp (names : List String)
  | impFrom (module : Option String) (level : Nat) (names : List String)
  | other
deriving DecidableEq

/-- Python str.startswith on the character lists of the two strings. -/
def pyStartswith (s pre : String) : Bool :=
  pre.data.isPrefixOf s.data

/-- One visitor step of ImportCheckerVisitor: visit_Import sets
import_found when any imported name starts with the target identifier;
visit_ImportFrom returns early when node.module is None and otherwise
tests node.module the same way; the relative level is never consulted. -/
def visitStmt (module_name : String) (found : Bool) : PyStmt → Bool
  | .imp names => found || names.any (fun nm => pyStartswith nm module_name)
  | .impFrom none _ _ => found
  | .impFrom (some m) _ _ => found || pyStartswith m module_name
  | .other => found

/-- The visitor run over every node of the tree, accumulating
import_found (initially False) across the statements. -/
def importCheck (stmts : List PyStmt) (module_name : String) : Bool :=
  stmts.foldl (visitStmt module_name) false

/-- The per-statement condition importCheck accumulates: some imported
name (or the from-import source module, when present) starts with the
target identifier as a plain string prefix. -/
def stmtImports (module_name : String) : PyStmt → Bool
  | .imp names => names.any (fun nm => pyStartswith nm module_name)
  | .impFrom none _ _ => false
  | .impFrom (some m) _ _ => pyStartswith m module_name
  | .other => false

/-- A candidate file for the structural finder: its path and the result
of ast.parse on its source (ast.parse is an external collaborator, so
its outcome is an input of the model; a SyntaxError is the error case). -/
structure PyFile where
  path : String
  parsed : Except String (List PyStmt)
deriving DecidableEq

/-- imports_module: parse the file, then run the visitor.  A parse
failure is not caught anywhere in the module, so it propagates. -/
def imports_module (f : PyFile) (module_name : String) : Except String Bool :=
  match f.parsed with
  | .error e => .error e
  | .ok stmts => .ok (importCheck stmts module_name)

/-- Python set.add on the list of already collected paths. -/
def insertPath (found : List String) (p : String) : List String :=
  if p ∈ found then found else found ++ [p]

/-- ImportFinderAST._visit_module: call imports_module and add the path
on success; an exception from ast.parse propagates out of the visit. -/
def astFinderVisit (module_name : String) (found : List String) (f : PyFile) :
    Except String (List String) :=
  match imports_module f module_name with
  | .error e => .error e
  | .ok b => .ok (if b then insertPath found f.path else found)

/-- The walk of ImportFinderAST over the candidate files in visitation
order, threading the accumulated set; an uncaught exception from a visit
aborts the remainder of the walk. -/
def astFinderWalkAux (module_name : String) (found : List String) :
    List PyFile → Except String (List String)
  | [] => .ok found
  | f :: fs =>
    match astFinderVisit module_name found f with
    | .error e => .error e
    | .ok found2 => astFinderWalkAux module_name found2 fs

/-- ImportFinderAST.walk started with the empty result set. -/
def astFinderWalk (module_name : String) (files : List PyFile) :
    Except String (List String) :=
  astFinderWalkAux module_name [] files

/-! ## Textual model: the two regular expressions of make_import_regexes -/

/-- The two compiled patterns returned by make_import_regexes: plain m
stands for the compiled "import {m}(.*)" and fromImp m for the compiled
"from {m}(.* import .+)". -/
inductive ImpPattern where
  | plain (module_name : String)
  | fromImp (module_name : String)

/-- make_import_regexes: the pair (import_regex, import_from_regex)
built from the two templates, plain import first. -/
def make_import_regexes (module_name : String) : ImpPattern × ImpPattern :=
  (ImpPattern.plain module_name, ImpPattern.fromImp module_name)

/-- Matching the literal part of a pattern at the head of the input.
The module identifier is embedded unescaped, so a dot in it is the
regular-expression wildcard (any character but a newline); every other
character matches only itself.  Returns the input after the literal. -/
def litMatch : List Char → List Char → Option (List Char)
  | [], cs => some cs
  | _ :: _, [] => none
  | p :: ps, c :: cs =>
    if p = '.' then (if c = '\n' then none else litMatch ps cs)
    else if p = c then litMatch ps cs else none

/-- The characters from the current position to the end of the line
(exclusive of the newline): the extent of a greedy (.*) or (.+). -/
def takeLine : List Char → List Char
  | [] => []
  | c :: cs => if c = '\n' then [] else c :: takeLine cs

/-- The rest of the input from the terminating newline on. -/
def dropLine : List Char → List Char
  | [] => []
  | c :: cs => if c = '\n' then c :: cs else dropLine cs

/-- Whether the group text of the from-import pattern can be split as
".* import .+": some position carries the literal " import " with at
least one character after it (the text is already newline free). -/
def fromGroupOk : List Char → Bool
  | [] => false
  | c :: cs =>
    (List.isPrefixOf " import ".data (c :: cs) && decide (8 ≤ cs.length))
      || fromGroupOk cs

/-- A match attempt anchored at the current position.  For the plain
pattern the literal "import {m}" must match here and the group (.*)
greedily takes the rest of the line.  For the from pattern the literal
"from {m}" must match here and the group (.* import .+) takes the rest
of the line provided it contains " import " followed by at least one
character.  Returns the group text and the input after the match. -/
def matchAt (p : ImpPattern) (cs : List Char) :
    Option (List Char × List Char) :=
  match p with
  | .plain m =>
    match litMatch ("import ".data ++ m.data) cs with
    | none => none
    | some rest => some (takeLine rest, dropLine rest)
  | .fromImp m =>
    match litMatch ("from ".data ++ m.data) cs with
    | none => none
    | some rest =>
      if fromGroupOk (takeLine rest) then some (takeLine rest, dropLine rest)
      else none

/-- re.search as a Boolean: some position of the input starts a match. -/
def regexSearch (p : ImpPattern) : List Char → Bool
  | [] => false
  | c :: cs => (matchAt p (c :: cs)).isSome || regexSearch p cs

/-- The replacement templates of ImportRenamer expanded at a match:
import_repl is "import {n}\1" and import_from_repl is "from {n}\1",
so the expansion is the keyword, the new identifier and the group. -/
def expandRepl (p : ImpPattern) (new_module_name : String)
    (group : List Char) : List Char :=
  match p with
  | .plain _ => "import ".data ++ new_module_name.data ++ group
  | .fromImp _ => "from ".data ++ new_module_name.data ++ group

theorem litMatch_length :
    ∀ (ps cs r : List Char), litMatch ps cs = some r →
      ps.length + r.length = cs.length
  | [], cs, r, h => by
    simp only [litMatch, Option.some.injEq] at h
    simp [h]
  | p :: ps, [], r, h => by simp [litMatch] at h
  | p :: ps, c :: cs, r, h => by
    simp only [litMatch] at h
    by_cases hp : p = '.'
    · rw [if_pos hp] at h
      by_cases hc : c = '\n'
      · rw [if_pos hc] at h; exact absurd h (by simp)
      · rw [if_neg hc] at h
        have := litMatch_length ps cs r h
        simpa using by omega
    · rw [if_neg hp] at h
      by_cases hpc : p = c
      · rw [if_pos hpc] at h
        have := litMatch_length ps cs r h
        simpa using by omega
      · rw [if_neg hpc] at h; exact absurd h (by simp)

theorem dropLine_length_le : ∀ cs : List Char, (dropLine cs).length ≤ cs.length
  | [] => by simp [dropLine]
  | c :: cs => by
    by_cases h : c = '\n'
    · simp [dropLine, h]
    · simp only [dropLine, if_neg h]
      have := dropLine_length_le cs
      simp only [List.length_cons]
      omega

theorem matchAt_snd_length (p : ImpPattern) (c : Char) (cs : List Char)
    (gr : List Char × List Char) (h : matchAt p (c :: cs) = some gr) :
    gr.2.length ≤ cs.length := by
  cases p with
  | plain m =>
    simp only [matchAt] at h
    cases hl : litMatch ("import ".data ++ m.data) (c :: cs) with
    | none => rw [hl] at h; exact absurd h (by simp)
    | some rest =>
      rw [hl] at h
      simp only [Option.some.injEq] at h
      have hlen := litMatch_length _ _ _ hl
      rw [List.length_append] at hlen
      have h7 : ("import ".data).length = 7 := by decide
      rw [h7] at hlen
      have hd := dropLine_length_le rest
      have hgr : gr.2 = dropLine rest := by rw [← h]
      rw [hgr]
      simp only [List.length_cons] at hlen
      omega
  | fromImp m =>
    simp only [matchAt] at h
    cases hl : litMatch ("from ".data ++ m.data) (c :: cs) with
    | none => rw [hl] at h; exact absurd h (by simp)
    | some rest =>
      rw [hl] at h
      by_cases hg : fromGroupOk (takeLine rest) = true
      · simp only [hg, if_true, Option.some.injEq] at h
        have hlen := litMatch_length _ _ _ hl
        rw [List.length_append] at hlen
        have h5 : ("from ".data).length = 5 := by decide
        rw [h5] at hlen
        have hd := dropLine_length_le rest
        have hgr : gr.2 = dropLine rest := by rw [← h]
        rw [hgr]
        simp only [List.length_cons] at hlen
        omega
      · simp only [if_neg hg] at h
        exact absurd h (by simp)

/-- The scan of re.sub, written with explicit fuel so that it is
structurally recursive (and so evaluates inside the kernel): scan left
to right, replace each match by the expanded replacement and resume
after the match.  One unit of fuel covers at least one consumed
character (matchAt_snd_length), so fuel equal to the input length never
runs out; regexSub_cons below recovers the natural recursion. -/
def regexSubFuel (p : ImpPattern) (new_module_name : String) :
    Nat → List Char → List Char
  | 0, _ => []
  | _ + 1, [] => []
  | fuel + 1, c :: cs =>
    match matchAt p (c :: cs) with
    | some gr => expandRepl p new_module_name gr.1 ++
        regexSubFuel p new_module_name fuel gr.2
    | none => c :: regexSubFuel p new_module_name fuel cs

/-- re.sub with the renamer replacement over the whole source. -/
def regexSub (p : ImpPattern) (new_module_name : String)
    (source : List Char) : List Char :=
  regexSubFuel p new_module_name source.length source

/-- The scan of re.finditer with the same explicit fuel, keeping what
_meets_pep8 consumes of each match: its group text, in scan order. -/
def regexFinditerFuel (p : ImpPattern) :
    Nat → List Char → List (List Char)
  | 0, _ => []
  | _ + 1, [] => []
  | fuel + 1, c :: cs =>
    match matchAt p (c :: cs) with
    | some gr => gr.1 :: regexFinditerFuel p fuel gr.2
    | none => regexFinditerFuel p fuel cs

/-- re.finditer (group texts of the non-overlapping matches). -/
def regexFinditer (p : ImpPattern) (source : List Char) :
    List (List Char) :=
  regexFinditerFuel p source.length source

theorem regexSubFuel_congr (p : ImpPattern) (new_module_name : String) :
    ∀ (fuel1 fuel2 : Nat) (cs : List Char),
      cs.length ≤ fuel1 → cs.length ≤ fuel2 →
      regexSubFuel p new_module_name fuel1 cs
        = regexSubFuel p new_module_name fuel2 cs
  | 0, fuel2, cs, h1, _ => by
    have : cs = [] := List.length_eq_zero.mp (Nat.le_zero.mp h1)
    subst this
    cases fuel2 <;> rfl
  | fuel1 + 1, 0, cs, _, h2 => by
    have : cs = [] := List.length_eq_zero.mp (Nat.le_zero.mp h2)
    subst this
    rfl
  | fuel1 + 1, fuel2 + 1, [], _, _ => rfl
  | fuel1 + 1, fuel2 + 1, c :: cs, h1, h2 => by
    simp only [List.length_cons, Nat.add_le_add_iff_right] at h1 h2
    simp only [regexSubFuel]
    cases hm : matchAt p (c :: cs) with
    | some gr =>
      have hlen := matchAt_snd_length p c cs gr hm
      simp only [regexSubFuel_congr p new_module_name fuel1 fuel2 gr.2
        (le_trans hlen h1) (le_trans hlen h2)]
    | none =>
      simp only [regexSubFuel_congr p new_module_name fuel1 fuel2 cs h1 h2]

theorem regexSub_nil (p : ImpPattern) (new_module_name : String) :
    regexSub p new_module_name [] = [] := rfl

theorem regexSub_cons (p : ImpPattern) (new_module_name : String)
    (c : Char) (cs : List Char) :
    regexSub p new_module_name (c :: cs)
      = match matchAt p (c :: cs) with
        | some gr => expandRepl p new_module_name gr.1 ++
            regexSub p new_module_name gr.2
        | none => c :: regexSub p new_module_name cs := by
  simp only [regexSub, List.length_cons, regexSubFuel]
  cases hm : matchAt p (c :: cs) with
  | some gr =>
    have hlen := matchAt_snd_length p c cs gr hm
    exact congrArg _ (regexSubFuel_congr p new_module_name cs.length
      gr.2.length gr.2 hlen le_rfl)
  | none =>
    exact congrArg _ (regexSubFuel_congr p new_module_name cs.length
      cs.length cs le_rfl le_rfl)

theorem regexFinditerFuel_congr (p : ImpPattern) :
    ∀ (fuel1 fuel2 : Nat) (cs : List Char),
      cs.length ≤ fuel1 → cs.length ≤ fuel2 →
      regexFinditerFuel p fuel1 cs = regexFinditerFuel p fuel2 cs
  | 0, fuel2, cs, h1, _ => by
    have : cs = [] := List.length_eq_zero.mp (Nat.le_zero.mp h1)
    subst this
    cases fuel2 <;> rfl
  | fuel1 + 1, 0, cs, _, h2 => by
    have : cs = [] := List.length_eq_zero.mp (Nat.le_zero.mp h2)
    subst this
    rfl
  | fuel1 + 1, fuel2 + 1, [], _, _ => rfl
  | fuel1 + 1, fuel2 + 1, c :: cs, h1, h2 => by
    simp only [List.length_cons, Nat.add_le_add_iff_right] at h1 h2
    simp only [regexFinditerFuel]
    cases hm : matchAt p (c :: cs) with
    | some gr =>
      have hlen := matchAt_snd_length p c cs gr hm
      simp only [regexFinditerFuel_congr p fuel1 fuel2 gr.2
        (le_trans hlen h1) (le_trans hlen h2)]
    | none =>
      simp only [regexFinditerFuel_congr p fuel1 fuel2 cs h1 h2]

theorem regexFinditer_cons (p : ImpPattern) (c : Char) (cs : List Char) :
    regexFinditer p (c :: cs)
      = match matchAt p (c :: cs) with
        | some gr => gr.1 :: regexFinditer p gr.2
        | none => regexFinditer p cs := by
  simp only [regexFinditer, List.length_cons, regexFinditerFuel]
  cases hm : matchAt p (c :: cs) with
  | some gr =>
    have hlen := matchAt_snd_length p c cs gr hm
    exact congrArg _ (regexFinditerFuel_congr p cs.length
      gr.2.length gr.2 hlen le_rfl)
  | none =>
    exact regexFinditerFuel_congr p cs.length cs.length cs le_rfl le_rfl

/-- A source with a match has a non-empty finditer list. -/
theorem regexFinditer_ne_nil (p : ImpPattern) :
    ∀ cs : List Char, regexSearch p cs = true → regexFinditer p cs ≠ []
  | c :: cs, h => by
    rw [regexFinditer_cons]
    cases hm : matchAt p (c :: cs) with
    | some gr => simp
    | none =>
      simp only [regexSearch, hm, Option.isSome_none, Bool.false_or]
        at h
      exact regexFinditer_ne_nil p cs h

/-! ## ImportRenamer: pep8 check, _check, _visit_module and the run -/

/-- The loop body of _meets_pep8 over the matches in scan order:
retval starts as None, each match sets it to True, and the first match
whose expanded replacement is longer than 79 characters sets it to
False and stops the loop. -/
def meetsPep8Aux (p : ImpPattern) (new_module_name : String) :
    List (List Char) → Option Bool
  | [] => none
  | g :: gs =>
    if 79 < (expandRepl p new_module_name g).length then some false
    else
      match meetsPep8Aux p new_module_name gs with
      | none => some true
      | some b => some b

/-- ImportRenamer._meets_pep8: None when the pattern has no match in
the source, otherwise whether every expanded replacement fits in 79
characters. -/
def meetsPep8 (p : ImpPattern) (new_module_name : String)
    (source : List Char) : Option Bool :=
  meetsPep8Aux p new_module_name (regexFinditer p source)

/-- ImportRenamer._check: None when the pattern does not match;
otherwise the substituted source together with the single report entry
appended to self.output, which is the path itself when _meets_pep8 is
truthy and the path behind the literal "pep8: " otherwise. -/
def check (p : ImpPattern) (new_module_name module_path : String)
    (source : List Char) : Option (List Char × String) :=
  if regexSearch p source then
    some (regexSub p new_module_name source,
      match meetsPep8 p new_module_name source with
      | some true => module_path
      | _ => "pep8: " ++ module_path)
  else
    none

/-- ImportRenamer._visit_module on one file: run _check_import first,
then _check_import_from only when the former returned None; the first
component is the content written back (None when the file is left
alone) and the second lists the entries appended to self.output. -/
def renamerVisitModule (module_name new_module_name module_path : String)
    (source : String) : Option String × List String :=
  let regexes := make_import_regexes module_name
  match check regexes.1 new_module_name module_path source.data with
  | some se => (some (String.mk se.1), [se.2])
  | none =>
    match check regexes.2 new_module_name module_path source.data with
    | some se => (some (String.mk se.1), [se.2])
    | none => (none, [])

/-- A file of the tree the renamer walks: its path as the walker hands
it to _visit_module, and its current content. -/
structure RenFile where
  path : String
  content : String
deriving DecidableEq

/-- One renamer visit at the file level: the file keeps its content
unless a write-back happened. -/
def renameFile (module_name new_module_name : String) (f : RenFile) :
    RenFile × List String :=
  match renamerVisitModule module_name new_module_name f.path f.content with
  | (some s, es) => (⟨f.path, s⟩, es)
  | (none, es) => (f, es)

/-- A whole renamer run over the tree in visitation order: the files
after the run and the report entries accumulated in self.output. -/
def renamerRun (module_name new_module_name : String) :
    List RenFile → List RenFile × List String
  | [] => ([], [])
  | f :: fs =>
    let step := renameFile module_name new_module_name f
    let rest := renamerRun module_name new_module_name fs
    (step.1 :: rest.1, step.2 ++ rest.2)

/-- The report entries one file contributes to the renamer output. -/
def fileReport (module_name new_module_name : String) (f : RenFile) :
    List String :=
  (renamerVisitModule module_name new_module_name f.path f.content).2

/-! ## CollectingImportWalker.__str__ -/

/-- CollectingImportWalker.__str__: every collected path is converted
with os.path.relpath against the walked root (relpath is an external
collaborator, abstracted as the function rel), the relative paths are
sorted and joined with newlines.  The found list stands for an
enumeration of the Python set of collected paths. -/
def collectorStr (rel : String → String) (found : List String) : String :=
  String.intercalate "\n" (List.insertionSort (fun a b => a ≤ b)
    (found.map rel))

/-- Models os.path.relpath p root (Python standard library, an external
collaborator) in the only case the concrete examples use: a path that
lies directly under the root is the path with the root and separator
stripped. -/
def relpathSimple (root p : String) : String :=
  if (root ++ "/").data.isPrefixOf p.data then
    String.mk (p.data.drop (root.length + 1))
  else p

/-! ## Helper lemmas -/

theorem visitStmt_or (module_name : String) (found : Bool) (s : PyStmt) :
    visitStmt module_name found s = (found || stmtImports module_name s) := by
  cases s with
  | imp names => rfl
  | impFrom mo l ns => cases mo <;> simp [visitStmt, stmtImports]
  | other => simp [visitStmt, stmtImports]

theorem importCheck_foldl (module_name : String) :
    ∀ (stmts : List PyStmt) (b : Bool),
      stmts.foldl (visitStmt module_name) b
        = (b || stmts.any (stmtImports module_name))
  | [], b => by simp
  | s :: stmts, b => by
    rw [List.foldl_cons, importCheck_foldl module_name stmts,
      visitStmt_or, List.any_cons, Bool.or_assoc]

theorem importCheck_eq_any (stmts : List PyStmt) (module_name : String) :
    importCheck stmts module_name = stmts.any (stmtImports module_name) := by
  rw [importCheck, importCheck_foldl]
  simp

theorem litMatch_isSome_iff_prefix :
    ∀ (ps cs : List Char), '.' ∉ ps →
      ((litMatch ps cs).isSome = true ↔ ps <+: cs)
  | [], cs, _ => by simp [litMatch, List.nil_prefix]
  | p :: ps, [], _ => by
    simp [litMatch]
  | p :: ps, c :: cs, hd => by
    have hp : p ≠ '.' := fun h => hd (h ▸ List.mem_cons_self p ps)
    have hps : '.' ∉ ps := fun h => hd (List.mem_cons_of_mem p h)
    simp only [litMatch, if_neg hp]
    by_cases hpc : p = c
    · rw [if_pos hpc, litMatch_isSome_iff_prefix ps cs hps,
        List.cons_prefix_cons]
      simp [hpc]
    · rw [if_neg hpc]
      simp [List.cons_prefix_cons, hpc]

theorem matchAt_plain_isSome (module_name : String) (cs : List Char) :
    (matchAt (ImpPattern.plain module_name) cs).isSome
      = (litMatch ("import ".data ++ module_name.data) cs).isSome := by
  simp only [matchAt]
  cases litMatch ("import ".data ++ module_name.data) cs <;> simp

theorem regexSearch_plain_iff_infix (module_name : String)
    (hdots : '.' ∉ module_name.data) :
    ∀ cs : List Char,
      (regexSearch (ImpPattern.plain module_name) cs = true ↔
        ("import ".data ++ module_name.data) <:+: cs)
  | [] => by
    simp only [regexSearch, List.infix_nil]
    constructor
    · intro h; exact absurd h (by simp)
    · intro h
      have : ("import ".data ++ module_name.data).length = 0 := by rw [h]; rfl
      simp at this
  | c :: cs => by
    have hpat : '.' ∉ ("import ".data ++ module_name.data) := by
      intro hmem
      rcases List.mem_append.mp hmem with h | h
      · exact absurd h (by decide)
      · exact hdots h
    rw [List.infix_cons_iff]
    simp only [regexSearch, Bool.or_eq_true, matchAt_plain_isSome,
      litMatch_isSome_iff_prefix _ _ hpat,
      regexSearch_plain_iff_infix module_name hdots cs]

theorem check_none_of_no_match (p : ImpPattern)
    (new_module_name module_path : String) (source : List Char)
    (h : regexSearch p source = false) :
    check p new_module_name module_path source = none := by
  simp [check, h]

theorem check_entry_shape (p : ImpPattern)
    (new_module_name module_path : String) (source : List Char)
    (se : List Char × String)
    (h : check p new_module_name module_path source = some se) :
    se.2 = module_path ∨ se.2 = "pep8: " ++ module_path := by
  by_cases hs : regexSearch p source = true
  · simp only [check, hs, if_true, Option.some.injEq] at h
    rcases h with rfl
    cases hm : meetsPep8 p new_module_name source with
    | none => simp [hm]
    | some b => cases b <;> simp [hm]
  · rw [check_none_of_no_match p _ _ _ (by simpa using hs)] at h
    exact absurd h (by simp)

/-! ## Claim C1 -/

/-- The claim of C1 is false at a concrete input: for identifier "M",
the file whose single statement is the plain import of "Mother"
(ast.parse on the one-line source "import Mother") is reported as
importing "M" by the structural checker, and the plain-import regular
expression for "M" also matches that source, because both use plain
string-prefix tests with no identifier-boundary requirement. -/
theorem c1_mother_counterexample :
    imports_module ⟨"f.py", .ok [PyStmt.imp ["Mother"]]⟩ "M" = .ok true
  ∧ regexSearch (ImpPattern.plain "M") "import Mother".data = true := by
  constructor
  · rfl
  · decide

/-- Claim C1, amended: the structural checker reports a file exactly
when some imported name (or from-import source module) starts with the
identifier as a plain string prefix, with no separator requirement; and
for an identifier without pattern metacharacters, the plain-import
matcher of make_import_regexes matches exactly when the literal text
"import " followed by the identifier occurs anywhere in the source, so
in particular a file containing only the statement importing Mother is
reported as importing M by both. -/
theorem c1_prefix_matching (stmts : List PyStmt) (module_name : String)
    (source : List Char) (hdots : '.' ∉ module_name.data) :
    importCheck stmts module_name = stmts.any (stmtImports module_name)
  ∧ (regexSearch (ImpPattern.plain module_name) source = true ↔
      ("import ".data ++ module_name.data) <:+: source) :=
  ⟨importCheck_eq_any stmts module_name,
    regexSearch_plain_iff_infix module_name hdots source⟩

/-- Witness for c1_prefix_matching at the Mother example. -/
theorem c1_prefix_matching_witness :
    ('.' ∉ "M".data)
  ∧ (importCheck [PyStmt.imp ["Mother"]] "M"
      = ([PyStmt.imp ["Mother"]]).any (stmtImports "M")
    ∧ (regexSearch (ImpPattern.plain "M") "import Mother".data = true ↔
        ("import ".data ++ "M".data) <:+: "import Mother".data)) :=
  ⟨by decide, c1_prefix_matching [PyStmt.imp ["Mother"]] "M"
    "import Mother".data (by decide)⟩

/-! ## Claim C2 -/

theorem astFinderWalkAux_error (module_name : String) :
    ∀ (pre : List PyFile) (found : List String) (bad : PyFile)
      (post : List PyFile) (e : String),
      bad.parsed = .error e →
      (∀ f ∈ pre, ∃ stmts, f.parsed = .ok stmts) →
      astFinderWalkAux module_name found (pre ++ bad :: post) = .error e
  | [], found, bad, post, e, hbad, _ => by
    simp [astFinderWalkAux, astFinderVisit, imports_module, hbad]
  | f :: pre, found, bad, post, e, hbad, hpre => by
    obtain ⟨stmts, hf⟩ := hpre f (List.mem_cons_self f pre)
    have hrest : ∀ g ∈ pre, ∃ stmts, g.parsed = .ok stmts := fun g hg =>
      hpre g (List.mem_cons_of_mem f hg)
    simp only [List.cons_append, astFinderWalkAux, astFinderVisit,
      imports_module, hf]
    exact astFinderWalkAux_error module_name pre _ bad post e hbad hrest

/-- The claim of C2 is false at a concrete input: a walk over a tree
whose first candidate fails to parse does not exclude that file and
continue; the SyntaxError propagates out of
ImportFinderAST._visit_module (nothing catches it), so the whole walk
aborts and even the second, well-formed file (which would have been
collected, as the walk over it alone shows) yields no result. -/
theorem c2_parse_failure_counterexample :
    astFinderWalk "foo" [⟨"bad.py", .error "invalid syntax"⟩,
        ⟨"good.py", .ok [PyStmt.imp ["foo"]]⟩]
      = .error "invalid syntax"
  ∧ astFinderWalk "foo" [⟨"good.py", .ok [PyStmt.imp ["foo"]]⟩]
      = .ok ["good.py"]
  ∧ (Except.error "invalid syntax"
      ≠ (Except.ok ["good.py"] : Except String (List String))) := by
  refine ⟨rfl, rfl, ?_⟩
  simp

/-- Claim C2, amended: a file whose source fails to parse raises an
uncaught exception that aborts the entire structural walk at that file:
whenever some candidate fails to parse and every candidate before it
parses, the walk returns that parse failure, no warning is surfaced and
the files after the failing one contribute nothing. -/
theorem c2_parse_failure_aborts_walk (module_name : String)
    (pre post : List PyFile) (bad : PyFile) (e : String)
    (hbad : bad.parsed = .error e)
    (hpre : ∀ f ∈ pre, ∃ stmts, f.parsed = .ok stmts) :
    astFinderWalk module_name (pre ++ bad :: post) = .error e :=
  astFinderWalkAux_error module_name pre [] bad post e hbad hpre

/-- Witness for c2_parse_failure_aborts_walk on a two-file tree. -/
theorem c2_parse_failure_aborts_walk_witness :
    ((⟨"worse.py", .error "boom"⟩ : PyFile).parsed = .error "boom")
  ∧ (∀ f ∈ [(⟨"fine.py", .ok [PyStmt.imp ["foo"]]⟩ : PyFile)],
      ∃ stmts, f.parsed = .ok stmts)
  ∧ astFinderWalk "foo"
      ([⟨"fine.py", .ok [PyStmt.imp ["foo"]]⟩] ++
        (⟨"worse.py", .error "boom"⟩ : PyFile) :: [])
      = .error "boom" :=
  ⟨rfl, fun f hf => ⟨[PyStmt.imp ["foo"]], by
      rcases List.mem_singleton.mp hf with rfl; rfl⟩,
    c2_parse_failure_aborts_walk "foo" _ _ _ _ rfl
      (fun f hf => ⟨[PyStmt.imp ["foo"]], by
        rcases List.mem_singleton.mp hf with rfl; rfl⟩)⟩

/-! ## Claim C3 -/

theorem renamerRun_noop (module_name new_module_name : String) :
    ∀ files : List RenFile,
      (∀ f ∈ files,
        regexSearch (ImpPattern.plain module_name) f.content.data = false ∧
        regexSearch (ImpPattern.fromImp module_name) f.content.data = false) →
      renamerRun module_name new_module_name files = (files, [])
  | [], _ => rfl
  | f :: files, h => by
    obtain ⟨h1, h2⟩ := h f (List.mem_cons_self f files)
    have hrest := renamerRun_noop module_name new_module_name files
      (fun g hg => h g (List.mem_cons_of_mem f hg))
    have hvisit : renamerVisitModule module_name new_module_name
        f.path f.content = (none, []) := by
      simp only [renamerVisitModule, make_import_regexes,
        check_none_of_no_match _ _ _ _ h1,
        check_none_of_no_match _ _ _ _ h2]
    simp [renamerRun, renameFile, hvisit, hrest]

/-- The claim of C3 is false at a concrete input: renaming a to a.b on
a one-file tree containing the plain import of a rewrites it to the
statement importing a.b, but a second, immediately following run matches
(the new identifier still has the old one as a textual prefix), makes a
substitution, reports the file, and leaves the content import a.b.b,
which is not byte-identical to the content after the first run. -/
theorem c3_idempotence_counterexample :
    (renamerRun "a" "a.b" [⟨"a.py", "import a"⟩]).1
      = [⟨"a.py", "import a.b"⟩]
  ∧ renamerRun "a" "a.b" [⟨"a.py", "import a.b"⟩]
      = ([⟨"a.py", "import a.b.b"⟩], ["a.py"])
  ∧ ("import a.b.b" : String) ≠ "import a.b" := by
  refine ⟨rfl, rfl, ?_⟩
  decide

/-- Claim C3, amended: the second run is a no-op exactly on those
once-renamed trees in which neither of the two patterns for the old
identifier still matches any file content; under that condition the
second run performs no substitutions, appends no report entries and
leaves every file byte-identical, but the condition can fail (for
instance when the new identifier extends the old one, as in renaming a
to a.b), in which case the second run rewrites again. -/
theorem c3_second_run_noop (module_name new_module_name : String)
    (files : List RenFile)
    (h : ∀ f ∈ (renamerRun module_name new_module_name files).1,
      regexSearch (ImpPattern.plain module_name) f.content.data = false ∧
      regexSearch (ImpPattern.fromImp module_name) f.content.data = false) :
    renamerRun module_name new_module_name
        (renamerRun module_name new_module_name files).1
      = ((renamerRun module_name new_module_name files).1, []) :=
  renamerRun_noop module_name new_module_name _ h

/-- Witness for c3_second_run_noop: renaming a to b on a one-file tree
is idempotent because the rewritten content matches neither pattern. -/
theorem c3_second_run_noop_witness :
    (∀ f ∈ (renamerRun "a" "b" [⟨"a.py", "import a"⟩]).1,
      regexSearch (ImpPattern.plain "a") f.content.data = false ∧
      regexSearch (ImpPattern.fromImp "a") f.content.data = false)
  ∧ renamerRun "a" "b" (renamerRun "a" "b" [⟨"a.py", "import a"⟩]).1
      = ((renamerRun "a" "b" [⟨"a.py", "import a"⟩]).1, []) :=
  ⟨by decide, c3_second_run_noop "a" "b" [⟨"a.py", "import a"⟩] (by decide)⟩

/-! ## Claim C9 -/

/-- Claim C9, confirmed: in one renamer visit the file content is
written back exactly when one report entry is appended for the file,
and never more than one entry is appended. -/
theorem c9_write_iff_reported
    (module_name new_module_name module_path source : String) :
    ((renamerVisitModule module_name new_module_name
        module_path source).1.isSome = true
      ↔ (renamerVisitModule module_name new_module_name
          module_path source).2.length = 1)
  ∧ (renamerVisitModule module_name new_module_name
      module_path source).2.length ≤ 1 := by
  simp only [renamerVisitModule, make_import_regexes]
  cases check (ImpPattern.plain module_name) new_module_name module_path
      source.data with
  | some se => simp
  | none =>
    cases check (ImpPattern.fromImp module_name) new_module_name module_path
        source.data with
    | some se => simp
    | none => simp

/-! ## Claim C10 -/

/-- Claim C10, confirmed: visit_ImportFrom skips a node only when its
module attribute is None (the "from . import x" form); a node with a
module name is checked by the plain prefix test with the relative level
never consulted, so "from .sub import x" (module "sub", level 1) is
treated like the absolute "from sub import x", and a file containing
only that statement is reported by imports_module as importing sub. -/
theorem c10_relative_level_ignored :
    (∀ (module_name mod : String) (found : Bool) (l1 l2 : Nat)
        (ns1 ns2 : List String),
      visitStmt module_name found (.impFrom (some mod) l1 ns1)
        = visitStmt module_name found (.impFrom (some mod) l2 ns2))
  ∧ (∀ (module_name : String) (found : Bool) (l : Nat) (ns : List String),
      visitStmt module_name found (.impFrom none l ns) = found)
  ∧ (∀ (module_name mod : String) (found : Bool) (l : Nat)
        (ns : List String),
      visitStmt module_name found (.impFrom (some mod) l ns)
        = (found || pyStartswith mod module_name))
  ∧ imports_module ⟨"c.py", .ok [PyStmt.impFrom (some "sub") 1 ["x"]]⟩ "sub"
      = .ok true :=
  ⟨fun _ _ _ _ _ _ _ => rfl, fun _ _ _ _ => rfl, fun _ _ _ _ _ => rfl,
    by constructor⟩

/-! ## Claim C4 -/

theorem meetsPep8Aux_eq_all (p : ImpPattern) (new_module_name : String) :
    ∀ gs : List (List Char), gs ≠ [] →
      meetsPep8Aux p new_module_name gs
        = some (gs.all
            (fun g => decide ((expandRepl p new_module_name g).length ≤ 79)))
  | [], h => absurd rfl h
  | g :: gs, _ => by
    simp only [meetsPep8Aux, List.all_cons]
    by_cases hg : 79 < (expandRepl p new_module_name g).length
    · rw [if_pos hg]
      have : decide ((expandRepl p new_module_name g).length ≤ 79)
          = false := by
        simp
        omega
      rw [this, Bool.false_and]
    · rw [if_neg hg]
      have hgd : decide ((expandRepl p new_module_name g).length ≤ 79)
          = true := by
        simp
        omega
      rw [hgd, Bool.true_and]
      cases hgs : gs with
      | nil => simp [meetsPep8Aux]
      | cons g2 gs2 =>
        rw [meetsPep8Aux_eq_all p new_module_name (g2 :: gs2) (by simp)]

/-- Claim C4, amended: the style flag of the report entry is decided by
the length of each rewritten matched statement, the text from the
keyword (import or from) to the end of its line, not by the length of
the whole rewritten line: whenever the pattern matches, the entry is the
plain path when every expanded replacement fits in 79 characters and
the pep8-tagged path when some expanded replacement is longer, while
any characters on the line before the match (such as indentation) are
ignored by the check.  For a match starting at the beginning of its
line the two notions coincide, so there an exactly-80-character
rewritten line is tagged and a 79-character one is not. -/
theorem c4_style_flag_characterization (p : ImpPattern)
    (new_module_name module_path : String) (source : List Char)
    (h : regexSearch p source = true) :
    check p new_module_name module_path source
      = some (regexSub p new_module_name source,
          if (regexFinditer p source).all
              (fun g => decide
                ((expandRepl p new_module_name g).length ≤ 79)) then
            module_path
          else "pep8: " ++ module_path) := by
  have hne := regexFinditer_ne_nil p source h
  simp only [check, h, if_true, meetsPep8,
    meetsPep8Aux_eq_all p new_module_name _ hne]
  cases (regexFinditer p source).all
      (fun g => decide ((expandRepl p new_module_name g).length ≤ 79)) <;>
    simp

/-- Witness for c4_style_flag_characterization: renaming a to ab in a
one-line source whose rewritten statement is exactly 80 characters
produces the pep8-tagged entry. -/
theorem c4_style_flag_characterization_witness :
    regexSearch (ImpPattern.plain "a")
        ("import a" ++ String.mk (List.replicate 71 'x')).data = true
  ∧ check (ImpPattern.plain "a") "ab" "f.py"
        ("import a" ++ String.mk (List.replicate 71 'x')).data
      = some (regexSub (ImpPattern.plain "a") "ab"
            ("import a" ++ String.mk (List.replicate 71 'x')).data,
          if (regexFinditer (ImpPattern.plain "a")
                ("import a" ++ String.mk (List.replicate 71 'x')).data).all
              (fun g => decide
                ((expandRepl (ImpPattern.plain "a") "ab" g).length ≤ 79))
            then "f.py"
          else "pep8: " ++ "f.py") :=
  ⟨by decide, c4_style_flag_characterization (ImpPattern.plain "a") "ab"
    "f.py" ("import a" ++ String.mk (List.replicate 71 'x')).data
    (by decide)⟩

/-- The claim of C4 is false at a concrete input: renaming a to b in a
file whose single line is a four-space-indented import, 80 characters
long before and after the rewrite, yields a report entry without the
style tag, because _meets_pep8 measures only the expanded match (76
characters here, from the import keyword on) and never the full line. -/
theorem c4_line_length_counterexample :
    renamerVisitModule "a" "b" "f.py"
        ("    import a" ++ String.mk (List.replicate 68 'x'))
      = (some ("    import b" ++ String.mk (List.replicate 68 'x')),
          ["f.py"])
  ∧ ("    import b" ++ String.mk (List.replicate 68 'x')).length = 80
  ∧ '\n' ∉ ("    import b" ++ String.mk (List.replicate 68 'x')).data
  ∧ ("f.py" : String) ≠ "pep8: f.py" := by
  refine ⟨rfl, by decide, by decide, by decide⟩

/-! ## Claim C5 -/

/-- Claim C5, confirmed: whenever one of the two patterns matches, the
visit writes back exactly the substituted source, an expression in
which the style check plays no part; the pep8 verdict decides only
which of the two entry forms is appended, never whether the rewrite is
persisted. -/
theorem c5_rewrite_despite_style
    (module_name new_module_name module_path : String) (source : String) :
    (regexSearch (ImpPattern.plain module_name) source.data = true →
      (renamerVisitModule module_name new_module_name module_path
          source).1
        = some (String.mk (regexSub (ImpPattern.plain module_name)
            new_module_name source.data)))
  ∧ (regexSearch (ImpPattern.plain module_name) source.data = false →
     regexSearch (ImpPattern.fromImp module_name) source.data = true →
      (renamerVisitModule module_name new_module_name module_path
          source).1
        = some (String.mk (regexSub (ImpPattern.fromImp module_name)
            new_module_name source.data))) := by
  constructor
  · intro hp
    simp only [renamerVisitModule, make_import_regexes, check, hp, if_true]
  · intro hp hf
    simp only [renamerVisitModule, make_import_regexes,
      check_none_of_no_match _ _ _ _ hp]
    simp only [check, hf, if_true]

/-- Witness for c5_rewrite_despite_style: a file whose rewritten import
statement is 82 characters long is still rewritten and persisted; its
entry (computed separately) carries the pep8 tag. -/
theorem c5_rewrite_despite_style_witness :
    regexSearch (ImpPattern.plain "foo")
        ("import foo" ++ String.mk (List.replicate 72 'x')).data = true
  ∧ (renamerVisitModule "foo" "bar" "r/b.py"
        ("import foo" ++ String.mk (List.replicate 72 'x'))).1
      = some (String.mk (regexSub (ImpPattern.plain "foo") "bar"
          ("import foo" ++ String.mk (List.replicate 72 'x')).data))
  ∧ (renamerVisitModule "foo" "bar" "r/b.py"
        ("import foo" ++ String.mk (List.replicate 72 'x'))).2
      = ["pep8: r/b.py"] :=
  ⟨by decide,
    (c5_rewrite_despite_style "foo" "bar" "r/b.py"
      ("import foo" ++ String.mk (List.replicate 72 'x'))).1 (by decide),
    by decide⟩

/-! ## Claim C6 -/

/-- Claim C6, confirmed: the plain-import matcher is consulted first
and the from-import matcher only when the plain one finds no match
anywhere in the source; when neither matches, no content is written and
no entry is appended, and when one matches the visit returns that
matcher's substitution together with its single entry. -/
theorem c6_matcher_order
    (module_name new_module_name module_path : String) (source : String) :
    (regexSearch (ImpPattern.plain module_name) source.data = true →
      ∃ e, renamerVisitModule module_name new_module_name module_path
          source
        = (some (String.mk (regexSub (ImpPattern.plain module_name)
            new_module_name source.data)), [e]))
  ∧ (regexSearch (ImpPattern.plain module_name) source.data = false →
     regexSearch (ImpPattern.fromImp module_name) source.data = true →
      ∃ e, renamerVisitModule module_name new_module_name module_path
          source
        = (some (String.mk (regexSub (ImpPattern.fromImp module_name)
            new_module_name source.data)), [e]))
  ∧ (regexSearch (ImpPattern.plain module_name) source.data = false →
     regexSearch (ImpPattern.fromImp module_name) source.data = false →
      renamerVisitModule module_name new_module_name module_path source
        = (none, [])) := by
  refine ⟨?_, ?_, ?_⟩
  · intro hp
    simp only [renamerVisitModule, make_import_regexes, check, hp, if_true]
    exact ⟨_, rfl⟩
  · intro hp hf
    simp only [renamerVisitModule, make_import_regexes,
      check_none_of_no_match _ _ _ _ hp]
    simp only [check, hf, if_true]
    exact ⟨_, rfl⟩
  · intro hp hf
    simp only [renamerVisitModule, make_import_regexes,
      check_none_of_no_match _ _ _ _ hp,
      check_none_of_no_match _ _ _ _ hf]

/-- Witness for c6_matcher_order at a source where only the from-import
matcher matches. -/
theorem c6_matcher_order_witness :
    regexSearch (ImpPattern.plain "foo") ("from foo import baz").data
      = false
  ∧ regexSearch (ImpPattern.fromImp "foo") ("from foo import baz").data
      = true
  ∧ ∃ e, renamerVisitModule "foo" "bar" "b.py" "from foo import baz"
      = (some (String.mk (regexSub (ImpPattern.fromImp "foo") "bar"
          ("from foo import baz").data)), [e]) :=
  ⟨by decide, by decide,
    (c6_matcher_order "foo" "bar" "b.py" "from foo import baz").2.1
      (by decide) (by decide)⟩

/-! ## Claim C7 -/

/-- Claim C7, confirmed: the rendered finder result is the collected
paths converted to be relative to the walked root (via the relpath
function, abstracted), sorted lexicographically and joined one per
line, and it does not depend on the order in which the paths were
inserted into the result set. -/
theorem c7_sorted_rendering (rel : String → String)
    (l1 l2 : List String) (h : l1.Perm l2) :
    collectorStr rel l1 = collectorStr rel l2
  ∧ collectorStr rel l1 = String.intercalate "\n"
      (List.insertionSort (fun a b => a ≤ b) (l1.map rel))
  ∧ List.Sorted (fun a b => a ≤ b)
      (List.insertionSort (fun a b => a ≤ b) (l1.map rel))
  ∧ (List.insertionSort (fun a b => a ≤ b) (l1.map rel)).Perm
      (l1.map rel) := by
  refine ⟨?_, rfl, List.sorted_insertionSort _ _,
    List.perm_insertionSort _ _⟩
  have hperm : (List.insertionSort (fun a b => a ≤ b) (l1.map rel)).Perm
      (List.insertionSort (fun a b => a ≤ b) (l2.map rel)) :=
    ((List.perm_insertionSort _ _).trans (h.map rel)).trans
      (List.perm_insertionSort _ _).symm
  have heq := List.eq_of_perm_of_sorted hperm
    (List.sorted_insertionSort _ _) (List.sorted_insertionSort _ _)
  simp only [collectorStr, heq]

/-- Witness for c7_sorted_rendering on a two-element permutation. -/
theorem c7_sorted_rendering_witness :
    (["b", "a"] : List String).Perm ["a", "b"]
  ∧ collectorStr id ["b", "a"] = collectorStr id ["a", "b"] :=
  ⟨by decide, (c7_sorted_rendering id ["b", "a"] ["a", "b"] (by decide)).1⟩

/-! ## Claim C8 -/

theorem renameFile_snd (module_name new_module_name : String)
    (f : RenFile) :
    (renameFile module_name new_module_name f).2
      = fileReport module_name new_module_name f := by
  simp only [renameFile, fileReport]
  rcases renamerVisitModule module_name new_module_name f.path f.content
    with ⟨w, es⟩
  cases w <;> rfl

/-- Claim C8, amended: the printed report has one line per affected
file in visitation order, but each line is either the path exactly as
the walker visited it (it is never converted to be relative to the
walked root) or that same path behind the literal tag "pep8: " rather
than "style: ". -/
theorem c8_report_entries (module_name new_module_name : String)
    (files : List RenFile) :
    (renamerRun module_name new_module_name files).2
      = (files.map (fileReport module_name new_module_name)).flatten
  ∧ ∀ f : RenFile, ∀ e ∈ fileReport module_name new_module_name f,
      e = f.path ∨ e = "pep8: " ++ f.path := by
  constructor
  · induction files with
    | nil => rfl
    | cons f fs ih =>
      simp only [renamerRun, List.map_cons, List.flatten_cons,
        renameFile_snd, ih]
  · intro f e he
    simp only [fileReport, renamerVisitModule, make_import_regexes] at he
    cases hp : check (ImpPattern.plain module_name) new_module_name
        f.path f.content.data with
    | some se =>
      rw [hp] at he
      simp only [List.mem_singleton] at he
      subst he
      exact check_entry_shape _ _ _ _ _ hp
    | none =>
      rw [hp] at he
      cases hf : check (ImpPattern.fromImp module_name) new_module_name
          f.path f.content.data with
      | some se =>
        rw [hf] at he
        simp only [List.mem_singleton] at he
        subst he
        exact check_entry_shape _ _ _ _ _ hf
      | none =>
        rw [hf] at he
        exact absurd he (by simp)

/-- Witness for c8_report_entries at a concrete affected file. -/
theorem c8_report_entries_witness :
    ("r/a.py" ∈ fileReport "foo" "bar" ⟨"r/a.py", "import foo"⟩)
  ∧ ("r/a.py" = (⟨"r/a.py", "import foo"⟩ : RenFile).path
      ∨ "r/a.py" = "pep8: " ++ (⟨"r/a.py", "import foo"⟩ : RenFile).path) :=
  ⟨by decide, (c8_report_entries "foo" "bar"
      [⟨"r/a.py", "import foo"⟩]).2 ⟨"r/a.py", "import foo"⟩ "r/a.py"
    (by decide)⟩

/-- The claim of C8 is false at concrete inputs: the report lines keep
the path exactly as visited (here under the root r) instead of the
root-relative path, and a style violation is tagged with the literal
"pep8: ", so neither a clean entry nor a tagged entry has the form the
claim states. -/
theorem c8_report_form_counterexample :
    (renamerRun "foo" "bar" [⟨"r/a.py", "import foo"⟩]).2 = ["r/a.py"]
  ∧ (renamerRun "foo" "bar"
        [⟨"r/b.py", "import foo" ++ String.mk (List.replicate 72 'x')⟩]).2
      = ["pep8: r/b.py"]
  ∧ relpathSimple "r" "r/a.py" = "a.py"
  ∧ relpathSimple "r" "r/b.py" = "b.py"
  ∧ ¬("r/a.py" = ("a.py" : String)
      ∨ "r/a.py" = "style: " ++ "a.py")
  ∧ ¬("pep8: r/b.py" = ("b.py" : String)
      ∨ "pep8: r/b.py" = "style: " ++ "b.py") := by
  refine ⟨rfl, rfl, by decide, by decide, by decide, by decide⟩

end RefactorTools
